import Mathlib

/-!
Verification development for `build_factors.py`, a single-file pipeline that
downloads Fama-French factor archives, extracts the monthly CSV block,
harmonizes column names, left-joins the five-factor and momentum tables on a
month-end index, and writes artifacts.  The Python source is shallowly
embedded below: pure fragments become Lean functions, pandas/stdlib calls are
modelled on the input fragment actually reachable from this program, raised
exceptions become `Except` errors, and file writes become an explicit list of
written paths.
-/

set_option maxRecDepth 4000

/-! ## Python string primitives

`str.strip` / `str.lower` / `str.upper` and the `\s` character class of the
`re` module, restricted to ASCII text (the archives are decoded latin-1 and
all labels appearing in them are ASCII). -/

/-- The characters matched by Python's `\s` (ASCII range) and stripped by
`str.strip()`. -/
def isPySpace (c : Char) : Bool :=
  c = ' ' || c = '\t' || c = '\n' || c = '\r' || c = '\x0b' || c = '\x0c'

/-- Model of Python `str.strip()` (ASCII whitespace). -/
def pyStrip (s : String) : String :=
  ⟨((s.toList.dropWhile isPySpace).reverse.dropWhile isPySpace).reverse⟩

/-- Model of Python `str.lower()` (ASCII). -/
def pyLower (s : String) : String :=
  ⟨s.toList.map Char.toLower⟩

/-- Model of Python `str.upper()` (ASCII). -/
def pyUpper (s : String) : String :=
  ⟨s.toList.map Char.toUpper⟩

/-- `needle` occurs at the start of `hay`. -/
def listStartsWith : List Char → List Char → Bool
  | [], _ => true
  | _ :: _, [] => false
  | a :: as, b :: bs => a == b && listStartsWith as bs

/-- Model of Python's `needle in hay` substring test. -/
def listHasSub (needle : List Char) : List Char → Bool
  | [] => listStartsWith needle []
  | c :: rest => listStartsWith needle (c :: rest) || listHasSub needle rest

/-- `strHasSub hay needle`: Python `needle in hay`. -/
def strHasSub (hay needle : String) : Bool :=
  listHasSub needle.toList hay.toList

/-! ## The month-token pattern

Model of the compiled pattern `yyyymm` of the source: start anchor, `\s*`,
a year group (`1` or `2` then three digits), `\s*`, an optional single
separator from the class dash, slash, space, then `\s*`, two digits, `\s*`,
and a final group: comma, semicolon, a whitespace character, or end of
string.  It is used with `re.match` (anchored at the start only).  The
optional separator class overlaps with `\s` only in the space character, so
the middle fragment accepts exactly: whitespace with at most one dash or
slash anywhere inside it; the deterministic scan below (skip spaces,
optionally take one dash or slash, skip spaces) recognizes the same
language.  After the two month digits, the tail of the pattern succeeds
exactly when the remainder is empty or starts with `,`, `;` or a whitespace
character. -/

def dropSp (l : List Char) : List Char := l.dropWhile isPySpace

/-- Core of the month-token regex, on the character list of the field. -/
def monthTokCore (l : List Char) : Bool :=
  match dropSp l with
  | c1 :: c2 :: c3 :: c4 :: rest =>
    (c1 == '1' || c1 == '2') && c2.isDigit && c3.isDigit && c4.isDigit &&
    (let r1 := dropSp rest
     let r2 := match r1 with
               | c :: t => if c == '-' || c == '/' then t else r1
               | [] => r1
     match dropSp r2 with
     | d1 :: d2 :: r3 =>
       d1.isDigit && d2.isDigit &&
       (match r3 with
        | [] => true
        | c :: _ => c == ',' || c == ';' || isPySpace c)
     | _ => false)
  | _ => false

/-- `yyyymm.match(first)` on a field string. -/
def monthTok (s : String) : Bool := monthTokCore s.toList

/-! ## Error kinds

The named kinds of section 7 of the behaviour under verification, plus the
unnamed Python exceptions this program can let escape: `KeyError` from a
pandas column selection, `ValueError` from `pd.to_datetime` on an
unparseable date, and `ValueError` from `DataFrame.join` when the two frames
share a column label. -/

inductive FFError where
  | FetchError
  | BlockNotFound
  | HeaderNotFound
  | MomentumColumnNotFound
  | NoOverlap
  | EmptyMomentum
  | KeyError
  | DateParseError
  | JoinOverlapError
deriving DecidableEq, Repr

/-! ## Block extraction (`_read_ff_zip_monthly`, lines 40-68)

`lines = text.splitlines()`; the functions below mirror the three loops of
the Python source: locate the first monthly row, scan backward for the
header, and consume the contiguous monthly run. -/

/-- Model of Python `s.split(",")`: split on every comma, keeping empty
groups (defined directly on the character list so that it reduces in the
kernel). -/
def splitCommaCore : List Char → List (List Char)
  | [] => [[]]
  | c :: rest =>
    if c == ',' then [] :: splitCommaCore rest
    else
      match splitCommaCore rest with
      | g :: gs => (c :: g) :: gs
      | [] => [[c]]

/-- `ln.split(",")` as strings. -/
def splitComma (ln : String) : List String :=
  (splitCommaCore ln.toList).map (fun g => ⟨g⟩)

/-- `ln.split(",")[0].strip()`. -/
def firstField (ln : String) : String :=
  pyStrip ((splitComma ln).headD "")

/-- The first-monthly-row scan:
`for i, ln in enumerate(lines): if yyyymm.match(ln.split(",")[0].strip()): first_row = i; break`. -/
def findFirstMonthly : List String → Option Nat
  | [] => none
  | ln :: rest =>
    if monthTok (firstField ln) then some 0
    else (findFirstMonthly rest).map (· + 1)

/-- `nthD l i d`: `l[i]` with default `d` (the indices used below are always
in bounds in the Python source). -/
def nthD : List α → Nat → α → α
  | [], _, d => d
  | x :: _, 0, _ => x
  | _ :: xs, i + 1, d => nthD xs i d

/-- The backward header scan, one step per iteration of
`for j in range(first_row - 1, max(-1, first_row - 60), -1)`:
`j` is the current index, `cnt` the number of iterations left. -/
def findHeaderAux (lines : List String) : Nat → Nat → Option Nat
  | _, 0 => none
  | j, cnt + 1 =>
    if pyStrip (nthD lines j "") != "" then some j
    else findHeaderAux lines (j - 1) cnt

/-- Header search above row `s`: the Python range runs for
`(s-1) - max(-1, s-60) = min s 59` iterations starting at `j = s - 1`. -/
def findHeader (lines : List String) (s : Nat) : Option Nat :=
  findHeaderAux lines (s - 1) (min s 59)

/-- The forward consumption loop:
`for ln in lines[first_row:]: first = ln.split(",")[0].strip();
 if not first or not yyyymm.match(first): break; block.append(ln)`. -/
def takeMonthly : List String → List String
  | [] => []
  | ln :: rest =>
    let f := firstField ln
    if f == "" || !(monthTok f) then []
    else ln :: takeMonthly rest

/-- The Block Extractor: returns the header line and the consumed monthly
rows, or the error the Python code raises.  (CSV parsing of the block is
`parseBlock` below.) -/
def extractBlock (lines : List String) : Except FFError (String × List String) :=
  match findFirstMonthly lines with
  | none => .error .BlockNotFound
  | some s =>
    match findHeader lines s with
    | none => .error .HeaderNotFound
    | some h => .ok (nthD lines h "", takeMonthly (lines.drop s))

instance {ε α : Type} [DecidableEq ε] [DecidableEq α] : DecidableEq (Except ε α) := fun x y =>
  match x, y with
  | .error a, .error b =>
    if h : a = b then isTrue (by rw [h]) else isFalse (by intro hh; cases hh; exact h rfl)
  | .ok a, .ok b =>
    if h : a = b then isTrue (by rw [h]) else isFalse (by intro hh; cases hh; exact h rfl)
  | .error _, .ok _ => isFalse (by intro hh; cases hh)
  | .ok _, .error _ => isFalse (by intro hh; cases hh)

example : monthTok "196307" = true := by decide
example : monthTok "1963-07" = true := by decide
example : monthTok "1963 07" = true := by decide
example : monthTok "1963" = false := by decide
example : monthTok "Annual Factors: January-December" = false := by decide
example : monthTok "196307 junk" = true := by decide
example : monthTok "1963-07-15" = false := by decide
example : firstField "196307, 2.96, -2.56" = "196307" := by decide
example : extractBlock ["banner", "", "hdr,Mkt-RF", "196307,1.0", "196308,2.0", "", "notes"]
    = .ok ("hdr,Mkt-RF", ["196307,1.0", "196308,2.0"]) := by decide

/-! ## Month-end timestamps

pandas timestamps enter this program only as day-resolution dates, and every
index is floored to the last calendar day of its month
(`.to_period("M").to_timestamp("M")`, or `pd.offsets.MonthEnd(0)` on a
month-start date).  A timestamp is modelled as an absolute month index
(`year * 12 + month - 1`) plus a day of month; order is lexicographic. -/

structure TS where
  month : Nat
  day : Nat
deriving DecidableEq, Repr

/-- The Gregorian leap-year rule (as used by pandas timestamps). -/
def isLeapYear (y : Nat) : Bool :=
  (y % 4 == 0 && y % 100 != 0) || y % 400 == 0

/-- Number of days of month `m` (1-12) of year `y`. -/
def daysInMonth (y m : Nat) : Nat :=
  if m == 2 then (if isLeapYear y then 29 else 28)
  else if m == 4 || m == 6 || m == 9 || m == 11 then 30
  else 31

/-- The month-end timestamp of year `y`, month `m`. -/
def monthEnd (y m : Nat) : TS :=
  ⟨y * 12 + (m - 1), daysInMonth y m⟩

/-- `.to_period("M").to_timestamp("M")`: floor a timestamp to the last
calendar day of its month. -/
def floorME (t : TS) : TS :=
  ⟨t.month, daysInMonth (t.month / 12) (t.month % 12 + 1)⟩

/-- Non-strict timestamp order (the sort key of `sort_index()`). -/
def TS.ble (a b : TS) : Bool :=
  decide (a.month < b.month) || (decide (a.month = b.month) && decide (a.day ≤ b.day))

/-- Strict timestamp order. -/
def TS.blt (a b : TS) : Bool :=
  decide (a.month < b.month) || (decide (a.month = b.month) && decide (a.day < b.day))

/-! ## Rows, keep-last de-duplication and sorting

`df[~df.index.duplicated(keep="last")].sort_index()` — performed both at the
end of block extraction and inside `_me` of the Aligner/Joiner.  A table row
is its (date, cell values) pair; `duplicated(keep="last")` marks an index
entry when the same date occurs again later, so the filter keeps exactly the
last occurrence of each date, in encounter order; `sort_index()` then sorts
by date (the keys are unique at that point, so stability is irrelevant). -/

/-- Cells are numeric-or-missing: `pd.to_numeric(..., errors="coerce")`. -/
abbrev Row := List (Option ℚ)

abbrev Entry := TS × Row

/-- `~index.duplicated(keep="last")`: keep a row exactly when its date does
not occur again later in the list. -/
def dedupKeepLast : List Entry → List Entry
  | [] => []
  | r :: rs =>
    if rs.any (fun r2 => r2.1 == r.1) then dedupKeepLast rs
    else r :: dedupKeepLast rs

/-- Insert one row into a date-sorted list of rows. -/
def insertByDate (r : Entry) : List Entry → List Entry
  | [] => [r]
  | x :: xs => if TS.blt r.1 x.1 then r :: x :: xs else x :: insertByDate r xs

/-- `sort_index()`: sort rows ascending by date. -/
def sortByDate : List Entry → List Entry
  | [] => []
  | x :: xs => insertByDate x (sortByDate xs)

/-- De-duplicate (keep last) then sort, exactly as the source does. -/
def dedupSort (rows : List Entry) : List Entry :=
  sortByDate (dedupKeepLast rows)

/-! ## Numeric coercion

`pd.to_numeric(df[c], errors="coerce")` applied to the string cells of the
monthly block.  The numeric tokens occurring in these files are plain
decimals with an optional sign (`2.96`, `-99.99`, `0.05`); the model parses
optional surrounding whitespace, an optional sign and digits with at most
one decimal point, and coerces anything else (including empty fields and
sentinel words) to missing.  (Scientific notation never occurs in the
archives and is not modelled.) -/

/-- Digit value of a character. -/
def digitVal (c : Char) : Nat := c.toNat - '0'.toNat

/-- Natural number denoted by a digit run (most significant first). -/
def digitsVal (l : List Char) : Nat :=
  l.foldl (fun acc c => acc * 10 + digitVal c) 0

/-- Parse an unsigned decimal: digit run, optional point and digit run;
at least one digit overall.  (Built with `mkRat` so it evaluates inside the
kernel.) -/
def parseUnsignedDec (l : List Char) : Option ℚ :=
  let intPart := l.takeWhile Char.isDigit
  let rest := l.drop intPart.length
  match rest with
  | [] => if intPart.isEmpty then none else some (mkRat (digitsVal intPart) 1)
  | '.' :: frac =>
    if frac.all Char.isDigit && !(intPart.isEmpty && frac.isEmpty) then
      some (mkRat (digitsVal intPart * 10 ^ frac.length + digitsVal frac) (10 ^ frac.length))
    else none
  | _ => none

/-- Model of `pd.to_numeric(·, errors="coerce")` on one cell. -/
def parseNumeric (s : String) : Option ℚ :=
  let l := dropSp (dropSp s.toList.reverse).reverse
  match l with
  | '-' :: rest => (parseUnsignedDec rest).map (fun q => -q)
  | '+' :: rest => parseUnsignedDec rest
  | _ => parseUnsignedDec l

example : parseNumeric " 2.96" = some (mkRat 296 100) := by decide
example : parseNumeric "-99.99" = some (-(mkRat 9999 100)) := by decide
example : parseNumeric "abc" = none := by decide
example : parseNumeric "" = none := by decide

/-! ## Date normalization (`_to_me`, lines 79-84)

`_to_me` first tries the strict pattern: start anchor, a four-digit group,
an optional single dash, slash or space, a two-digit group, end anchor.  On
a match it evaluates `pd.to_datetime(f"{yyyy}-{mm}") + pd.offsets.MonthEnd(0)`,
which yields the month-end timestamp when `mm` is a real month and the
result lies inside the representable pandas timestamp range (from
1677-09-21 to 2262-04-11: months October 1677 through March 2262 survive
both the parse and the month-end shift), and raises otherwise.  On a
non-match it evaluates `pd.to_datetime(s).to_period("M").to_timestamp("M")`,
which raises for an unparseable string and yields `NaT` for the pandas
NaT-strings.  A raised exception is `errDate` below; `natDate` is `NaT`
(later removed by `dropna`). -/

inductive MEResult where
  | okDate (t : TS)
  | natDate
  | errDate
deriving DecidableEq, Repr

/-- The strict pattern of `_to_me`: exactly four digits, an optional single
dash, slash or space, exactly two digits, end of string. -/
def strictYM (l : List Char) : Option (Nat × Nat) :=
  match l with
  | c1 :: c2 :: c3 :: c4 :: rest =>
    if c1.isDigit && c2.isDigit && c3.isDigit && c4.isDigit then
      let y := digitsVal [c1, c2, c3, c4]
      match rest with
      | m1 :: m2 :: [] =>
        if m1.isDigit && m2.isDigit then some (y, digitsVal [m1, m2]) else none
      | sep :: m1 :: m2 :: [] =>
        if (sep == '-' || sep == '/' || sep == ' ') && m1.isDigit && m2.isDigit then
          some (y, digitsVal [m1, m2])
        else none
      | _ => none
    else none
  | _ => none

/-- Absolute month index of year `y`, month `m` (1-12). -/
def monthIdx (y m : Nat) : Nat := y * 12 + (m - 1)

/-- Months whose month-end timestamp is representable in pandas
(October 1677 through March 2262). -/
def monthInBounds (y m : Nat) : Bool :=
  Nat.ble (monthIdx 1677 10) (monthIdx y m) && Nat.ble (monthIdx y m) (monthIdx 2262 3)

/-- The strings `pandas` parses to `NaT` (its `nat_strings` set). -/
def isNatString (s : String) : Bool :=
  s == "nan" || s == "NaN" || s == "NAN" || s == "NaT" || s == "nat" || s == "NAT"

/-- Split a character list into maximal runs not containing separator
characters (whitespace, dash, slash), dropping the separators — the
tokenization the generic `pd.to_datetime` parser applies to the strings
reachable here. -/
def dateTokens (l : List Char) : List (List Char) :=
  match l with
  | [] => []
  | c :: rest =>
    if isPySpace c || c == '-' || c == '/' then dateTokens rest
    else
      match dateTokens rest with
      | [] => [[c]]
      | g :: gs =>
        match rest with
        | [] => [[c]]
        | c2 :: _ =>
          if isPySpace c2 || c2 == '-' || c2 == '/' then [c] :: g :: gs
          else (c :: g) :: gs

/-- Model of the generic branch
`pd.to_datetime(s).to_period("M").to_timestamp("M")` on the token shapes
that can reach it from a monthly block (the first field of a block row
matches the month-token pattern, so after the strict pattern has failed the
stripped field tokenizes into a four-digit year followed by a two-digit
month, optionally followed by a day token).  NaT-strings yield `NaT`;
every other shape makes the underlying dateutil parser raise. -/
def genericToME (s : String) : MEResult :=
  if isNatString s then .natDate
  else
    match (dateTokens s.toList).map (fun t => (t, t.all Char.isDigit)) with
    | [(y, true), (m, true)] =>
      if y.length == 4 && m.length ≤ 2 && m.length ≥ 1 then
        let yv := digitsVal y
        let mv := digitsVal m
        if 1 ≤ mv && mv ≤ 12 && monthInBounds yv mv then .okDate (monthEnd yv mv)
        else .errDate
      else .errDate
    | [(y, true), (m, true), (d, true)] =>
      if y.length == 4 && m.length ≤ 2 && m.length ≥ 1 && d.length ≤ 2 && d.length ≥ 1 then
        let yv := digitsVal y
        let mv := digitsVal m
        let dv := digitsVal d
        if 1 ≤ mv && mv ≤ 12 && 1 ≤ dv && dv ≤ daysInMonth yv mv && monthInBounds yv mv then
          .okDate (monthEnd yv mv)
        else .errDate
      else .errDate
    | _ => .errDate

/-- `_to_me`: strip, try the strict year-month pattern, else the generic
parse; in both cases the surviving value is the month-end timestamp. -/
def toME (s : String) : MEResult :=
  let t := pyStrip s
  match strictYM t.toList with
  | some (y, m) =>
    if 1 ≤ m && m ≤ 12 && monthInBounds y m then .okDate (monthEnd y m) else .errDate
  | none => genericToME t

example : toME "196307" = .okDate (monthEnd 1963 7) := by decide
example : toME " 1963-07 " = .okDate (monthEnd 1963 7) := by decide
example : toME "196399" = .errDate := by decide
example : toME "196307 junk" = .errDate := by decide
example : toME "nan" = .natDate := by decide
example : toME "1963 07 05" = .okDate (monthEnd 1963 7) := by decide

/-! ## DataFrames

A `DF` is a pandas DataFrame with a date index: an ordered column-label list
and rows of (index date, positional cells).  (The tables of this program
have exactly one cell per column; operations use a padding default where
pandas would broadcast.) -/

structure DF where
  cols : List String
  rows : List Entry
deriving DecidableEq, Repr

/-- Label lookup: position of the first column with the given label. -/
def colIdx (cols : List String) (c : String) : Option Nat :=
  match cols with
  | [] => none
  | x :: xs => if x == c then some 0 else (colIdx xs c).map (· + 1)

/-- The cell of a positional row under a column label (missing label or
short row gives the missing marker). -/
def rowVal (cols : List String) (vs : Row) (c : String) : Option ℚ :=
  match colIdx cols c with
  | some i => nthD vs i none
  | none => none

/-- `df[cs]` where every label of `cs` is present (pandas label selection,
first occurrence of each label). -/
def DF.select (df : DF) (cs : List String) : DF :=
  ⟨cs, df.rows.map (fun r => (r.1, cs.map (fun c => rowVal df.cols r.2 c)))⟩

/-- `df[cs]` as pandas performs it: `KeyError` when a label is absent. -/
def DF.selectE (df : DF) (cs : List String) : Except FFError DF :=
  if cs.all (fun c => df.cols.contains c) then .ok (df.select cs) else .error .KeyError

/-- `df.rename(columns=...)` for a single source label (pandas renames every
occurrence of the label). -/
def DF.renameCol (df : DF) (a b : String) : DF :=
  ⟨df.cols.map (fun c => if c == a then b else c), df.rows⟩

/-- `df[c] = pd.NA` for a fresh column label. -/
def DF.addNACol (df : DF) (c : String) : DF :=
  ⟨df.cols ++ [c], df.rows.map (fun r => (r.1, r.2 ++ [none]))⟩

/-- The one-column lookup `m.rows` performs during a left join. -/
def DF.colOf (df : DF) (c : String) : List (TS × Option ℚ) :=
  df.rows.map (fun r => (r.1, rowVal df.cols r.2 c))

/-- `df[c].notna().sum()`: number of non-missing cells of column `c`. -/
def notNACount (df : DF) (c : String) : Nat :=
  df.rows.countP (fun r => (rowVal df.cols r.2 c).isSome)

/-! ## Parsing the extracted block (`_read_ff_zip_monthly`, lines 70-90)

`pd.read_csv` on the header line plus the consumed monthly rows: the header
fields name the columns (stripped immediately afterwards by the source), the
first column holds the raw date strings, every other column is coerced with
`pd.to_numeric(errors="coerce")`.  (The blocks of these archives have as
many data fields as header fields; short rows pad with missing, pandas'
index inference on longer rows is not modelled.)  Then `_to_me` is mapped
over the date column — a raise aborts the build —, rows whose date is `NaT`
are dropped, and the result is de-duplicated (keep last) and sorted. -/

/-- The per-row work of `read_csv` plus the numeric coercion plus
`map(_to_me)`: each data row becomes its `_to_me` date outcome paired with
its numerically coerced cells (one per non-date header field). -/
def blockDated (hdr : String) (rows : List String) : List (MEResult × Row) :=
  let fields := (splitComma hdr).map pyStrip
  (rows.map splitComma).map (fun r =>
    (toME (nthD r 0 ""),
     (List.range (fields.length - 1)).map (fun i => parseNumeric (nthD r (i + 1) ""))))

/-- Header and data rows to (column labels, dated rows before
de-duplication); `DateParseError` models the `ValueError` that
`pd.to_datetime` raises inside `map(_to_me)`, and the `dropna` removes
exactly the `NaT` rows. -/
def preParse (hdr : String) (rows : List String) : Except FFError (List String × List Entry) :=
  let dated := blockDated hdr rows
  if dated.any (fun x => x.1 == MEResult.errDate) then .error .DateParseError
  else
    .ok (((splitComma hdr).map pyStrip).drop 1, dated.filterMap (fun x =>
      match x.1 with
      | .okDate t => some (t, x.2)
      | _ => none))

/-- CSV-parse the block and normalize: the `MonthlyTable` produced by block
extraction. -/
def parseBlock (hdr : String) (rows : List String) : Except FFError DF :=
  (preParse hdr rows).map (fun p => ⟨p.1, dedupSort p.2⟩)

/-- `_read_ff_zip_monthly` after the fetch: extract the monthly block from
the decoded lines and parse it. -/
def readMonthly (lines : List String) : Except FFError DF :=
  (extractBlock lines).bind (fun b => parseBlock b.1 b.2)

example :
    readMonthly ["header,Mkt-RF,SMB", "196308,2.0,1.0", "196307,1.5,0.5"]
      = .ok ⟨["Mkt-RF", "SMB"],
             [(monthEnd 1963 7, [some (mkRat 15 10), some (mkRat 5 10)]),
              (monthEnd 1963 8, [some (mkRat 2 1), some (mkRat 1 1)])]⟩ := by decide

/-! ## Column Harmonizer (`_harmonize_five`, `_harmonize_mom`) -/

/-- The fixed rename map of `_harmonize_five` (the identity entries of the
dict map a name to itself). -/
def fiveRename (c : String) : String :=
  if c == "Mkt-RF" || c == "MKT-RF" || c == "Mkt_RF" then "MKT_RF" else c

/-- `_harmonize_five`: rename the spelling variants, keep the canonical
five-factor columns that are present, in canonical order. -/
def harmonizeFive (df : DF) : DF :=
  let d2 : DF := ⟨df.cols.map fiveRename, df.rows⟩
  d2.select (["MKT_RF", "SMB", "HML", "RMW", "CMA", "RF"].filter
    (fun c => d2.cols.contains c))

/-- The candidate scan of `_harmonize_mom`: first column whose stripped name
is `Mom`; else first column whose stripped lowercase name contains `mom`;
else first column whose stripped uppercase name is `WML`. -/
def findMomCol (cols : List String) : Option String :=
  match cols.find? (fun c => pyStrip c == "Mom") with
  | some c => some c
  | none =>
    match cols.find? (fun c => strHasSub (pyLower (pyStrip c)) "mom") with
    | some c => some c
    | none => cols.find? (fun c => pyUpper (pyStrip c) == "WML")

/-- `_harmonize_mom`: detect the momentum column, rename it unless its
stripped name is already `Mom`, then select the literal label `Mom`
(`out[["Mom"]]`, which raises `KeyError` when no column is literally named
`Mom`). -/
def harmonizeMom (df : DF) : Except FFError DF :=
  match findMomCol df.cols with
  | none => .error .MomentumColumnNotFound
  | some mc =>
    let out := if pyStrip mc == "Mom" then df else df.renameCol mc "Mom"
    out.selectE ["Mom"]

example : harmonizeMom ⟨["WML"], [(monthEnd 1963 7, [some (mkRat 1 2)])]⟩
    = .ok ⟨["Mom"], [(monthEnd 1963 7, [some (mkRat 1 2)])]⟩ := by decide
example : harmonizeMom ⟨["Mkt-RF", "SMB"], []⟩ = .error .MomentumColumnNotFound := by decide

/-! ## Aligner/Joiner (`_align_and_join_with_diagnostics`, lines 174-213) -/

/-- `_me`: force the index to month-end, de-duplicate keeping the last
occurrence, sort ascending. -/
def meNorm (df : DF) : DF :=
  ⟨df.cols, dedupSort (df.rows.map (fun r => (floorME r.1, r.2)))⟩

/-- `len(five_me.index.intersection(mom_me.index))` (both indices are unique
after `_me`, so this is the number of shared dates). -/
def overlapLen (a b : DF) : Nat :=
  ((a.rows.map (fun r => r.1)).filter (fun d => (b.rows.map (fun r => r.1)).contains d)).length

/-- `five_me.join(other, how="left")` for a right table with a unique index:
every left row is kept in order; the right cells are attached where the date
matches, missing otherwise.  (The caller guards the overlapping-label
`ValueError` separately.) -/
def leftJoin (l r : DF) : DF :=
  ⟨l.cols ++ r.cols,
   l.rows.map (fun a =>
     (a.1, a.2 ++
       (match r.rows.find? (fun b => b.1 == a.1) with
        | some b => b.2
        | none => r.cols.map (fun _ => (none : Option ℚ)))))⟩

/-- The loop of `_ensure_all_cols`: `df[c] = pd.NA` for each required label
not already present. -/
def addMissing (df : DF) (ordered : List String) : DF :=
  ordered.foldl (fun acc c => if acc.cols.contains c then acc else acc.addNACol c) df

/-- `_ensure_all_cols`: add an all-missing column for each absent required
label, then select the required labels in order. -/
def ensureAllCols (df : DF) (ordered : List String) : DF :=
  (addMissing df ordered).select ordered

/-- The table `_align_and_join_with_diagnostics` returns on success:
month-end normalize both inputs, left-join the selected momentum column onto
the five-factor table, and complete the required column set. -/
def joinedTable (five mom : DF) (required : List String) (momName : String) : DF :=
  ensureAllCols (leftJoin (meNorm five) ((meNorm mom).select [momName])) required

/-- `_align_and_join_with_diagnostics`: the checks in source order — raise
`NoOverlap` when the normalized indices share no date; `KeyError` when the
momentum table lacks `momName`; the pandas overlapping-column `ValueError`
when the five-factor table already carries `momName`; `KeyError` again when
`momName` is not among the required labels of the final frame; and
`EmptyMomentum` when the joined momentum column has no non-missing value. -/
def alignJoin (five mom : DF) (required : List String) (momName : String) :
    Except FFError DF :=
  let fiveMe := meNorm five
  let momMe := meNorm mom
  if overlapLen fiveMe momMe == 0 then .error .NoOverlap
  else if !(momMe.cols.contains momName) then .error .KeyError
  else if fiveMe.cols.contains momName then .error .JoinOverlapError
  else
    let df := joinedTable five mom required momName
    if !(df.cols.contains momName) then .error .KeyError
    else if notNACount df momName == 0 then .error .EmptyMomentum
    else .ok df

/-! ## Builders and driver (`build_us_ff5_mom`,
`build_developed_exus_ff5_mom_as_global_stem`, `__main__`)

Fetching is I/O: a build consumes the fetch outcomes of its two archives
(`FetchError` models `requests` failures / `raise_for_status`), in the
evaluation order of the source.  `_write_artifacts` is modelled by the list
of paths it writes; a build returns that list only when it completes. -/

/-- The canonical seven-column layout passed by both builders. -/
def reqCols : List String := ["MKT_RF", "SMB", "HML", "RMW", "CMA", "Mom", "RF"]

/-- The paths `_write_artifacts` writes for a stem. -/
def writeArtifacts (stem : String) : List String :=
  ["data/" ++ stem ++ ".parquet", "data/" ++ stem ++ ".csv.gz", "meta/" ++ stem ++ ".json"]

/-- The pure pipeline of one builder: read and harmonize the five-factor
archive, read and harmonize the momentum archive, align and join. -/
def buildPipeline (fetch5 fetchMom : Except FFError (List String)) : Except FFError DF :=
  fetch5.bind fun l5 =>
    (readMonthly l5).bind fun d5 =>
      let five := harmonizeFive d5
      fetchMom.bind fun lm =>
        (readMonthly lm).bind fun dm =>
          (harmonizeMom dm).bind fun mom =>
            alignJoin five mom reqCols "Mom"

/-- One universe build: run the pipeline, and only on success invoke the
Writer; the second component is the list of artifact paths written. -/
def buildUniverse (stem : String) (fetch5 fetchMom : Except FFError (List String)) :
    Except FFError DF × List String :=
  match buildPipeline fetch5 fetchMom with
  | .error e => (.error e, [])
  | .ok df => (.ok df, writeArtifacts stem)

/-- The `__main__` driver: run the US build, then — only if it returned —
the Developed ex-US build; the second component lists the stems whose build
was attempted, in order. -/
def mainDriver (us5 usM dx5 dxM : Except FFError (List String)) :
    Except FFError Unit × List String :=
  match (buildUniverse "us_ff5_mom" us5 usM).1 with
  | .error e => (.error e, ["us_ff5_mom"])
  | .ok _ =>
    match (buildUniverse "global_exus_ff5_mom" dx5 dxM).1 with
    | .error e => (.error e, ["us_ff5_mom", "global_exus_ff5_mom"])
    | .ok _ => (.ok (), ["us_ff5_mom", "global_exus_ff5_mom"])

/-! ## Lemmas about the extraction scans -/

theorem monthTok_empty : monthTok "" = false := by decide

theorem nthD_cons_succ (x : α) (xs : List α) (i : Nat) (d : α) :
    nthD (x :: xs) (i + 1) d = nthD xs i d := rfl

theorem nthD_drop (l : List α) (n i : Nat) (d : α) :
    nthD (l.drop n) i d = nthD l (n + i) d := by
  induction l generalizing n i with
  | nil => simp [List.drop_nil, nthD]
  | cons x xs ih =>
    cases n with
    | zero => simp [List.drop]
    | succ n' =>
      have : n' + 1 + i = (n' + i) + 1 := by omega
      rw [List.drop_succ_cons, ih, this, nthD_cons_succ]

theorem findFirstMonthly_eq_none (l : List String)
    (h : ∀ ln ∈ l, monthTok (firstField ln) = false) :
    findFirstMonthly l = none := by
  induction l with
  | nil => rfl
  | cons x xs ih =>
    simp only [findFirstMonthly, h x (by simp), ih (fun ln hln => h ln (by simp [hln]))]
    rfl

theorem findFirstMonthly_eq_some (l : List String) (s : Nat) (hs : s < l.length)
    (htok : monthTok (firstField (nthD l s "")) = true)
    (hpre : ∀ i, i < s → monthTok (firstField (nthD l i "")) = false) :
    findFirstMonthly l = some s := by
  induction l generalizing s with
  | nil => simp at hs
  | cons x xs ih =>
    cases s with
    | zero =>
      simp only [nthD] at htok
      simp [findFirstMonthly, htok]
    | succ s' =>
      have h0 : monthTok (firstField x) = false := hpre 0 (Nat.succ_pos s')
      have hrec : findFirstMonthly xs = some s' := by
        refine ih s' (by simpa using hs) htok ?_
        intro i hi
        exact hpre (i + 1) (by omega)
      simp [findFirstMonthly, h0, hrec]

theorem takeMonthly_eq_take (l : List String) (k : Nat) (hk : k ≤ l.length)
    (hall : ∀ i, i < k → monthTok (firstField (nthD l i "")) = true)
    (hstop : k = l.length ∨ monthTok (firstField (nthD l k "")) = false) :
    takeMonthly l = l.take k := by
  induction l generalizing k with
  | nil =>
    have : k = 0 := by simpa using hk
    simp [takeMonthly, this]
  | cons x xs ih =>
    cases k with
    | zero =>
      have hf : monthTok (firstField x) = false := by
        rcases hstop with h | h
        · simp at h
        · simpa [nthD] using h
      simp [takeMonthly, hf]
    | succ k' =>
      have htok : monthTok (firstField x) = true := hall 0 (Nat.succ_pos k')
      have hne : (firstField x == "") = false := by
        cases he : firstField x == "" with
        | false => rfl
        | true =>
          have : firstField x = "" := by simpa using he
          rw [this, monthTok_empty] at htok
          cases htok
      have hrec : takeMonthly xs = xs.take k' := by
        refine ih k' (by simpa using hk) ?_ ?_
        · intro i hi
          exact hall (i + 1) (by omega)
        · rcases hstop with h | h
          · left; simpa using h
          · right; simpa [nthD] using h
      simp [takeMonthly, htok, hne, hrec, List.take_succ_cons]

theorem findHeaderAux_eq_some (lines : List String) (h : Nat)
    (hne : pyStrip (nthD lines h "") ≠ "") :
    ∀ cnt j, h ≤ j → j - h < cnt →
      (∀ j', h < j' → j' ≤ j → pyStrip (nthD lines j' "") = "") →
      findHeaderAux lines j cnt = some h := by
  intro cnt
  induction cnt with
  | zero => intro j _ habs; omega
  | succ c ih =>
    intro j hhj hcnt hblank
    by_cases hj : j = h
    · subst hj
      have : (pyStrip (nthD lines j "") != "") = true := by
        simpa [bne_iff_ne] using hne
      simp [findHeaderAux, this]
    · have hlt : h < j := by omega
      have hbj : pyStrip (nthD lines j "") = "" := hblank j hlt (Nat.le_refl j)
      have hcond : (pyStrip (nthD lines j "") != "") = false := by
        simp [hbj]
      have hrec : findHeaderAux lines (j - 1) c = some h := by
        refine ih (j - 1) (by omega) (by omega) ?_
        intro j' hj1 hj2
        exact hblank j' hj1 (by omega)
      simp [findHeaderAux, hcond, hrec]

/-! ## Lemmas about keep-last de-duplication and date sorting -/

theorem TS_ble_trans {a b c : TS} (h1 : TS.ble a b = true) (h2 : TS.ble b c = true) :
    TS.ble a c = true := by
  simp only [TS.ble, Bool.or_eq_true, Bool.and_eq_true, decide_eq_true_eq] at *
  omega

theorem TS_ble_of_not_blt {a b : TS} (h : TS.blt a b = false) : TS.ble b a = true := by
  simp only [TS.blt, Bool.or_eq_false_iff, Bool.and_eq_false_iff,
    decide_eq_false_iff_not] at h
  simp only [TS.ble, Bool.or_eq_true, Bool.and_eq_true, decide_eq_true_eq]
  omega

theorem TS_ble_of_blt {a b : TS} (h : TS.blt a b = true) : TS.ble a b = true := by
  simp only [TS.blt, Bool.or_eq_true, Bool.and_eq_true, decide_eq_true_eq] at h
  simp only [TS.ble, Bool.or_eq_true, Bool.and_eq_true, decide_eq_true_eq]
  omega

theorem TS_blt_of_ble_of_ne {a b : TS} (h : TS.ble a b = true) (hne : a ≠ b) :
    TS.blt a b = true := by
  cases a with
  | mk am ad =>
    cases b with
    | mk bm bd =>
      simp only [TS.ble, Bool.or_eq_true, Bool.and_eq_true, decide_eq_true_eq] at h
      simp only [TS.blt, Bool.or_eq_true, Bool.and_eq_true, decide_eq_true_eq]
      simp only [ne_eq, TS.mk.injEq, not_and] at hne
      rcases h with h | ⟨he, hd⟩
      · exact Or.inl h
      · subst he
        right
        exact ⟨rfl, lt_of_le_of_ne hd (fun hdd => hne rfl hdd)⟩

theorem dedupKeepLast_sublist (l : List Entry) : (dedupKeepLast l).Sublist l := by
  induction l with
  | nil => simp [dedupKeepLast]
  | cons r rs ih =>
    by_cases h : rs.any (fun r2 => r2.1 == r.1) = true
    · simpa [dedupKeepLast, h] using ih.cons r
    · simp only [dedupKeepLast, h]
      rw [if_neg (by simp [h])]
      exact ih.cons₂ r

theorem mem_dedupKeepLast {l : List Entry} {x : Entry} (h : x ∈ dedupKeepLast l) : x ∈ l :=
  (dedupKeepLast_sublist l).mem h

theorem dedupKeepLast_key_pairwise (l : List Entry) :
    (dedupKeepLast l).Pairwise (fun a b => a.1 ≠ b.1) := by
  induction l with
  | nil => simp [dedupKeepLast]
  | cons r rs ih =>
    by_cases h : rs.any (fun r2 => r2.1 == r.1) = true
    · simpa [dedupKeepLast, h] using ih
    · simp only [dedupKeepLast, h]
      rw [if_neg (by simp [h])]
      refine List.Pairwise.cons ?_ ih
      intro y hy
      have hyrs : y ∈ rs := mem_dedupKeepLast hy
      have : ¬ (y.1 == r.1) = true := by
        intro hc
        exact h (List.any_eq_true.mpr ⟨y, hyrs, hc⟩)
      intro hk
      exact this (by simp [hk])

theorem dedupKeepLast_filter (l : List Entry) (d : TS) :
    (dedupKeepLast l).filter (fun r => r.1 == d)
      = ((l.filter (fun r => r.1 == d)).getLast?).toList := by
  induction l with
  | nil => simp [dedupKeepLast]
  | cons r rs ih =>
    by_cases h : rs.any (fun r2 => r2.1 == r.1) = true
    · rcases List.any_eq_true.mp h with ⟨r2, hr2, hkey⟩
      have hkey' : r2.1 = r.1 := by simpa using hkey
      simp only [dedupKeepLast, h, if_true]
      rw [List.filter_cons]
      by_cases hd : (r.1 == d) = true
      · have hdd : r.1 = d := by simpa using hd
        have hmem : r2 ∈ rs.filter (fun r3 => r3.1 == d) := by
          refine List.mem_filter.mpr ⟨hr2, ?_⟩
          simp [hkey', hdd]
        rw [if_pos (by simpa using hd)]
        cases hfil : rs.filter (fun r3 => r3.1 == d) with
        | nil => rw [hfil] at hmem; cases hmem
        | cons y ys =>
          rw [hfil] at ih
          rw [List.getLast?_cons_cons, ih]
      · rw [if_neg (by simpa using hd)]
        exact ih
    · simp only [dedupKeepLast, h]
      rw [if_neg (by simp [h])]
      have hnone : ∀ r2 ∈ rs, ¬ (r2.1 == r.1) = true := by
        intro r2 hr2 hc
        exact h (List.any_eq_true.mpr ⟨r2, hr2, hc⟩)
      rw [List.filter_cons, List.filter_cons]
      by_cases hd : (r.1 == d) = true
      · have hdd : r.1 = d := by simpa using hd
        have hfrs : rs.filter (fun r3 => r3.1 == d) = [] := by
          rw [List.filter_eq_nil_iff]
          intro r2 hr2
          intro hc
          exact hnone r2 hr2 (by simp_all)
        have hfdd : (dedupKeepLast rs).filter (fun r3 => r3.1 == d) = [] := by
          rw [List.filter_eq_nil_iff]
          intro r2 hr2
          intro hc
          exact hnone r2 (mem_dedupKeepLast hr2) (by simp_all)
        rw [if_pos (by simpa using hd), if_pos (by simpa using hd), hfdd, hfrs]
        simp
      · rw [if_neg (by simpa using hd), if_neg (by simpa using hd)]
        exact ih

theorem insertByDate_perm (r : Entry) (l : List Entry) :
    (insertByDate r l).Perm (r :: l) := by
  induction l with
  | nil => simp [insertByDate]
  | cons x xs ih =>
    simp only [insertByDate]
    by_cases h : TS.blt r.1 x.1 = true
    · rw [if_pos h]
    · rw [if_neg (by simp [h])]
      exact (ih.cons x).trans (List.Perm.swap r x xs)

theorem sortByDate_perm (l : List Entry) : (sortByDate l).Perm l := by
  induction l with
  | nil => simp [sortByDate]
  | cons x xs ih =>
    exact (insertByDate_perm x (sortByDate xs)).trans (ih.cons x)

theorem insertByDate_pairwise (r : Entry) (l : List Entry)
    (h : l.Pairwise (fun a b => TS.ble a.1 b.1 = true)) :
    (insertByDate r l).Pairwise (fun a b => TS.ble a.1 b.1 = true) := by
  induction l with
  | nil => simp [insertByDate]
  | cons x xs ih =>
    rcases List.pairwise_cons.mp h with ⟨hx, hxs⟩
    simp only [insertByDate]
    by_cases hlt : TS.blt r.1 x.1 = true
    · rw [if_pos hlt]
      refine List.pairwise_cons.mpr ⟨?_, h⟩
      intro y hy
      rcases List.mem_cons.mp hy with rfl | hy2
      · exact TS_ble_of_blt hlt
      · exact TS_ble_trans (TS_ble_of_blt hlt) (hx y hy2)
    · rw [if_neg (by simp [hlt])]
      refine List.pairwise_cons.mpr ⟨?_, ih hxs⟩
      intro y hy
      have hy2 := (insertByDate_perm r xs).mem_iff.mp hy
      rcases List.mem_cons.mp hy2 with rfl | hy3
      · exact TS_ble_of_not_blt (by simpa using hlt)
      · exact hx y hy3

theorem sortByDate_pairwise (l : List Entry) :
    (sortByDate l).Pairwise (fun a b => TS.ble a.1 b.1 = true) := by
  induction l with
  | nil => simp [sortByDate]
  | cons x xs ih => exact insertByDate_pairwise x (sortByDate xs) ih

theorem dedupSort_pairwise_blt (l : List Entry) :
    (dedupSort l).Pairwise (fun a b => TS.blt a.1 b.1 = true) := by
  have hperm := sortByDate_perm (dedupKeepLast l)
  have hne : (dedupSort l).Pairwise (fun a b : Entry => a.1 ≠ b.1) :=
    (List.Perm.pairwise_iff (fun hab => hab.symm) hperm.symm).mp
      (dedupKeepLast_key_pairwise l)
  have hble : (dedupSort l).Pairwise (fun a b : Entry => TS.ble a.1 b.1 = true) :=
    sortByDate_pairwise (dedupKeepLast l)
  exact (hble.and hne).imp (fun hab => TS_blt_of_ble_of_ne hab.1 hab.2)

theorem findEqHeadFilter (p : α → Bool) (l : List α) : l.find? p = (l.filter p).head? := by
  induction l with
  | nil => rfl
  | cons x xs ih =>
    by_cases h : p x = true
    · simp [List.find?_cons, List.filter_cons, h]
    · simp only [List.find?_cons, List.filter_cons, h]
      simpa [h] using ih

theorem dedupSort_find? (l : List Entry) (d : TS) :
    (dedupSort l).find? (fun r => r.1 == d) = (l.filter (fun r => r.1 == d)).getLast? := by
  rw [findEqHeadFilter]
  have hperm : ((dedupSort l).filter (fun r => r.1 == d)).Perm
      ((dedupKeepLast l).filter (fun r => r.1 == d)) :=
    (sortByDate_perm (dedupKeepLast l)).filter _
  rw [dedupKeepLast_filter] at hperm
  cases hlast : (l.filter (fun r => r.1 == d)).getLast? with
  | none =>
    rw [hlast] at hperm
    simp only [Option.toList] at hperm
    rw [hperm.eq_nil]
    rfl
  | some x =>
    rw [hlast] at hperm
    simp only [Option.toList] at hperm
    rw [List.perm_singleton.mp hperm]
    rfl

theorem mem_dedupSort {l : List Entry} {x : Entry} (h : x ∈ dedupSort l) : x ∈ l :=
  mem_dedupKeepLast ((sortByDate_perm (dedupKeepLast l)).mem_iff.mp h)

/-! ## Claim theorems -/

/-- C2 (counterexample): the claim promises the block back for every
well-formed monthly block preceded by a non-blank header line; but when the
nearest non-blank line sits 60 lines above the first monthly row (here:
header at index 0, 59 blank lines, the block at index 60, a blank line
after), the backward scan of the source — bounded at
`range(first_row - 1, max(-1, first_row - 60), -1)`, which never reaches
index 0 once `first_row` is 60 — fails with `HeaderNotFound` instead of
returning the block. -/
theorem C2_counterexample_header_beyond_window :
    extractBlock (["Header line"] ++ List.replicate 59 "" ++ ["196307,1.0", ""])
      = .error .HeaderNotFound := by decide

/-- C2 (amended): for every line list with a first monthly run on indices
`s ≤ i < e` (nothing matching before `s`, every first field matching the
month-token pattern on the run, the run ended by the end of the input or a
first line whose field is empty or fails the pattern), whose nearest
preceding non-blank line `h` lies within the source's backward window
(`s ≤ h + 59`), the Block Extractor returns exactly that header line plus
exactly the lines of the run — no earlier lines, no later lines. -/
theorem C2_block_extractor_exact (lines : List String) (s e h : Nat)
    (hse : s < e) (hel : e ≤ lines.length)
    (hpre : ∀ i < s, monthTok (firstField (nthD lines i "")) = false)
    (hrun : ∀ i < e - s, monthTok (firstField (nthD lines (s + i) "")) = true)
    (hstop : e = lines.length ∨ monthTok (firstField (nthD lines e "")) = false)
    (hh1 : h < s) (hh2 : s ≤ h + 59)
    (hh3 : pyStrip (nthD lines h "") ≠ "")
    (hh4 : ∀ j < s - (h + 1), pyStrip (nthD lines (h + 1 + j) "") = "") :
    extractBlock lines = .ok (nthD lines h "", (lines.drop s).take (e - s)) := by
  have hslen : s < lines.length := lt_of_lt_of_le hse hel
  have hfind : findFirstMonthly lines = some s := by
    refine findFirstMonthly_eq_some lines s hslen ?_ (fun i hi => hpre i hi)
    have h0 := hrun 0 (by omega)
    simpa using h0
  have hhead : findHeader lines s = some h := by
    unfold findHeader
    refine findHeaderAux_eq_some lines h hh3 (min s 59) (s - 1) (by omega) (by omega) ?_
    intro j' hj1 hj2
    have hj : j' = h + 1 + (j' - h - 1) := by omega
    rw [hj]
    exact hh4 (j' - h - 1) (by omega)
  have htake : takeMonthly (lines.drop s) = (lines.drop s).take (e - s) := by
    refine takeMonthly_eq_take (lines.drop s) (e - s) ?_ ?_ ?_
    · rw [List.length_drop]; omega
    · intro i hi
      rw [nthD_drop]
      exact hrun i hi
    · rcases hstop with he | he
      · left; rw [List.length_drop]; omega
      · right
        rw [nthD_drop]
        have hs : s + (e - s) = e := by omega
        rw [hs]
        exact he
  simp [extractBlock, hfind, hhead, htake]

/-- Witness for `C2_block_extractor_exact` at a concrete five-line input. -/
theorem C2_block_extractor_exact_witness :
    extractBlock ["Monthly Factors", "hdr,Mkt-RF", "196307,1.0", "196308,2.0", "Annual"]
      = .ok ("hdr,Mkt-RF", ["196307,1.0", "196308,2.0"]) := by
  have h := C2_block_extractor_exact
    ["Monthly Factors", "hdr,Mkt-RF", "196307,1.0", "196308,2.0", "Annual"] 2 4 1
    (by decide) (by decide) (by decide) (by decide) (by decide)
    (by decide) (by decide) (by decide) (by decide)
  exact h

/-- C8: for every line list in which no line's first comma-delimited field
matches the month-token pattern, the Block Extractor fails with
`BlockNotFound` (it does not return an empty table). -/
theorem C8_block_not_found (lines : List String)
    (h : ∀ ln ∈ lines, monthTok (firstField ln) = false) :
    extractBlock lines = .error .BlockNotFound := by
  simp [extractBlock, findFirstMonthly_eq_none lines h]

/-- Witness for `C8_block_not_found`: a file containing only an annual
block. -/
theorem C8_block_not_found_witness :
    (∀ ln ∈ ["Annual Factors: January-December", "Mkt-RF,SMB", "1963,-0.5", "1964,1.2"],
        monthTok (firstField ln) = false)
    ∧ extractBlock ["Annual Factors: January-December", "Mkt-RF,SMB", "1963,-0.5", "1964,1.2"]
        = .error .BlockNotFound :=
  ⟨by decide, C8_block_not_found _ (by decide)⟩

/-- C7: every normalized table of the pipeline satisfies the invariant —
after `dedupSort` (the keep-last de-duplication plus date sort shared by
block extraction and by `_me` inside the Aligner/Joiner) the dates are
strictly ascending with no duplicates, and the row stored under a date is
the last-encountered input row with that date; `meNorm` and `parseBlock`
produce exactly `dedupSort` tables. -/
theorem C7_monthly_table_invariant :
    (∀ rows : List Entry,
        (dedupSort rows).Pairwise (fun a b => TS.blt a.1 b.1 = true))
    ∧ (∀ (rows : List Entry) (d : TS),
        (dedupSort rows).find? (fun r => r.1 == d)
          = (rows.filter (fun r => r.1 == d)).getLast?)
    ∧ (∀ df : DF,
        (meNorm df).rows = dedupSort (df.rows.map (fun r => (floorME r.1, r.2))))
    ∧ (∀ (hdr : String) (rows : List String) (cs : List String) (rs : List Entry),
        preParse hdr rows = .ok (cs, rs) → parseBlock hdr rows = .ok ⟨cs, dedupSort rs⟩) :=
  ⟨dedupSort_pairwise_blt,
   dedupSort_find?,
   fun _ => rfl,
   fun hdr rows cs rs hp => by simp [parseBlock, hp, Except.map]⟩

/-- Witness for `C7_monthly_table_invariant`: a block with a duplicated
month keeps the later row and sorts the dates. -/
theorem C7_monthly_table_invariant_witness :
    parseBlock "D,X" ["196308,9.0", "196307,1.0", "196307,2.0"]
      = .ok ⟨["X"], dedupSort [(monthEnd 1963 8, [some (mkRat 9 1)]),
                               (monthEnd 1963 7, [some (mkRat 1 1)]),
                               (monthEnd 1963 7, [some (mkRat 2 1)])]⟩
    ∧ (dedupSort [(monthEnd 1963 8, [some (mkRat 9 1)]),
                  (monthEnd 1963 7, [some (mkRat 1 1)]),
                  (monthEnd 1963 7, [some (mkRat 2 1)])]).find?
        (fun r => r.1 == monthEnd 1963 7)
      = some (monthEnd 1963 7, [some (mkRat 2 1)]) := by
  constructor
  · exact C7_monthly_table_invariant.2.2.2 "D,X" _ _ _ (by decide)
  · rw [C7_monthly_table_invariant.2.1]
    decide

/-- C1: the Column Harmonizer's own candidate scan resolves the raw label
`Mom   ` (trailing spaces) by its first rule, but `_harmonize_mom` then
skips the rename — the condition `norm[mom_col] != "Mom"` compares the
stripped name — and selects the literal label `Mom`, which is not a column
of the frame: the pandas selection raises `KeyError` instead of returning
the single-column `Mom` table the claim (and the function's docstring)
promises. -/
theorem C1_mom_trailing_spaces_raises_keyerror :
    findMomCol ["Mom   "] = some "Mom   "
    ∧ harmonizeMom ⟨["Mom   "], [(monthEnd 1963 7, [some (mkRat 1 2)])]⟩
        = .error .KeyError := by decide

/-- C6 (counterexample): `196308 junk` is a consumable block row (its first
field matches the month-token pattern) whose first-column value parses
under neither branch of `_to_me`; the claim says such a row is silently
dropped while the remaining rows are kept, but the extraction raises
instead — `pd.to_datetime` is called with its default `errors="raise"`. -/
theorem C6_counterexample_unparseable_date_fails_build :
    monthTok (firstField "196308 junk,2.0") = true
    ∧ toME "196308 junk" = .errDate
    ∧ readMonthly ["hdr,X", "196307,1.0", "196308 junk,2.0"] = .error .DateParseError := by
  decide

/-- C6 (amended): a consumed block row whose first-column value fails to
parse as a date makes the extraction raise (a build failure) rather than
dropping the row; the drop step removes exactly the rows whose parse yields
the missing-date marker `NaT`, keeping the others. -/
theorem C6_unparseable_date_raises :
    (∀ (hdr : String) (rows : List String),
      (blockDated hdr rows).any (fun x => x.1 == MEResult.errDate) = true →
        preParse hdr rows = .error .DateParseError)
    ∧ (∀ (hdr : String) (rows : List String),
      (blockDated hdr rows).any (fun x => x.1 == MEResult.errDate) = false →
        preParse hdr rows = .ok (((splitComma hdr).map pyStrip).drop 1,
          (blockDated hdr rows).filterMap (fun x =>
            match x.1 with
            | .okDate t => some (t, x.2)
            | _ => none)))
    ∧ (∀ (lines : List String) (hdr : String) (rows : List String),
      extractBlock lines = .ok (hdr, rows) →
      (blockDated hdr rows).any (fun x => x.1 == MEResult.errDate) = true →
        readMonthly lines = .error .DateParseError) := by
  refine ⟨?_, ?_, ?_⟩
  · intro hdr rows h
    simp [preParse, h]
  · intro hdr rows h
    simp [preParse, h]
  · intro lines hdr rows hex h
    simp [readMonthly, hex, parseBlock, preParse, h, Except.map, Except.bind]

/-- Witness for `C6_unparseable_date_raises`: an unparseable date raises,
a `NaT` date row is dropped while the good row is kept. -/
theorem C6_unparseable_date_raises_witness :
    preParse "hdr,X" ["196307,1.0", "196308 junk,2.0"] = .error .DateParseError
    ∧ preParse "hdr,X" ["196307,1.0", "nan,5.0"]
        = .ok (["X"], [(monthEnd 1963 7, [some (mkRat 1 1)])]) := by
  constructor
  · exact C6_unparseable_date_raises.1 "hdr,X" _ (by decide)
  · have h := C6_unparseable_date_raises.2.1 "hdr,X" ["196307,1.0", "nan,5.0"] (by decide)
    exact h

/-! ## Lemmas about column lookup and the join -/

/-- The momentum value a left join attaches at date `d`: the `momName` cell
of the matching row of `m`, missing when no row of `m` carries `d`. -/
def momLookup (m : DF) (momName : String) (d : TS) : Option ℚ :=
  match m.rows.find? (fun r => r.1 == d) with
  | some r => rowVal m.cols r.2 momName
  | none => none

theorem colIdx_cons (x : String) (xs : List String) (c : String) :
    colIdx (x :: xs) c = if x == c then some 0 else (colIdx xs c).map (· + 1) := rfl

theorem colIdx_append_some {cs1 : List String} {c : String} {i : Nat}
    (h : colIdx cs1 c = some i) (cs2 : List String) :
    colIdx (cs1 ++ cs2) c = some i := by
  induction cs1 generalizing i with
  | nil => simp [colIdx] at h
  | cons x xs ih =>
    rw [colIdx_cons] at h
    rw [List.cons_append, colIdx_cons]
    by_cases hx : (x == c) = true
    · rw [if_pos hx] at h
      rw [if_pos hx]
      exact h
    · rw [if_neg hx] at h
      rw [if_neg hx]
      cases hxs : colIdx xs c with
      | none => rw [hxs] at h; simp at h
      | some j =>
        rw [hxs] at h
        rw [ih hxs]
        simpa using h

theorem colIdx_append_none {cs1 : List String} {c : String}
    (h : colIdx cs1 c = none) (cs2 : List String) :
    colIdx (cs1 ++ cs2) c = (colIdx cs2 c).map (· + cs1.length) := by
  induction cs1 with
  | nil => simp [colIdx]
  | cons x xs ih =>
    rw [colIdx_cons] at h
    rw [List.cons_append, colIdx_cons]
    by_cases hx : (x == c) = true
    · rw [if_pos hx] at h
      cases h
    · rw [if_neg hx] at h
      rw [if_neg hx]
      cases hxs : colIdx xs c with
      | some j => rw [hxs] at h; simp at h
      | none =>
        rw [ih hxs]
        cases hc2 : colIdx cs2 c with
        | none => rfl
        | some j =>
          simp only [Option.map_some', Option.some.injEq, List.length_cons]
          omega

theorem colIdx_none_of_not_contains {cs : List String} {c : String}
    (h : cs.contains c = false) : colIdx cs c = none := by
  induction cs with
  | nil => rfl
  | cons x xs ih =>
    simp only [List.contains_cons, Bool.or_eq_false_iff] at h
    have hx : (c == x) = false := h.1
    have hx' : (x == c) = false := by
      cases hxc : (x == c) with
      | false => rfl
      | true =>
        have : x = c := by simpa using hxc
        rw [this] at hx
        simp at hx
    simp [colIdx, hx', ih h.2]

theorem nthD_append_right (vs ws : List α) (k : Nat) (d : α) :
    nthD (vs ++ ws) (vs.length + k) d = nthD ws k d := by
  induction vs with
  | nil => simp [nthD]
  | cons v vt ih =>
    simp only [List.cons_append, List.length_cons]
    have : vt.length + 1 + k = (vt.length + k) + 1 := by omega
    rw [this, nthD_cons_succ, ih]

theorem nthD_append_nones (vs : Row) (ws : Row) (hw : ∀ x ∈ ws, x = none) (i : Nat) :
    nthD (vs ++ ws) i none = nthD vs i none := by
  induction vs generalizing i with
  | nil =>
    simp only [List.nil_append]
    induction ws generalizing i with
    | nil => rfl
    | cons w wt ihw =>
      cases i with
      | zero => simpa [nthD] using hw w (by simp)
      | succ j =>
        rw [nthD_cons_succ]
        exact ihw (fun x hx => hw x (by simp [hx])) j
  | cons v vt ih =>
    cases i with
    | zero => rfl
    | succ j =>
      simp only [List.cons_append, nthD_cons_succ]
      exact ih j

theorem rowValMapSelf (cs : List String) (f : String → Option ℚ) (c : String)
    (h : c ∈ cs) : rowVal cs (cs.map f) c = f c := by
  induction cs with
  | nil => cases h
  | cons x xs ih =>
    by_cases hx : (x == c) = true
    · have hxc : x = c := by simpa using hx
      simp [rowVal, colIdx, hx, nthD, hxc]
    · have hmem : c ∈ xs := by
        rcases List.mem_cons.mp h with rfl | hm
        · simp at hx
        · exact hm
      have ihx := ih hmem
      simp only [rowVal, colIdx, hx, if_false, List.map_cons, Bool.false_eq_true] at ihx ⊢
      cases hxs : colIdx xs c with
      | none => rw [hxs] at ihx; simpa using ihx
      | some j =>
        rw [hxs] at ihx
        simpa [nthD_cons_succ] using ihx

theorem colIdx_isSome_of_contains {cs : List String} {c : String}
    (h : cs.contains c = true) : ∃ i, colIdx cs c = some i := by
  induction cs with
  | nil => simp at h
  | cons x xs ih =>
    rw [colIdx_cons]
    by_cases hx : (x == c) = true
    · exact ⟨0, by rw [if_pos hx]⟩
    · have hxc : ¬ x = c := by simpa using hx
      have hcx : (c == x) = false := by
        cases hcx2 : (c == x) with
        | false => rfl
        | true =>
          have : c = x := by simpa using hcx2
          exact absurd this.symm hxc
      rw [List.contains_cons, hcx, Bool.false_or] at h
      rcases ih h with ⟨i, hi⟩
      exact ⟨i + 1, by rw [if_neg hx, hi]; rfl⟩

theorem contains_append_left {cs1 : List String} {c : String}
    (h : cs1.contains c = true) (cs2 : List String) : (cs1 ++ cs2).contains c = true := by
  have hm : c ∈ cs1 := by simpa using h
  simpa using List.mem_append_left cs2 hm

theorem contains_append_right {cs2 : List String} {c : String}
    (h : cs2.contains c = true) (cs1 : List String) : (cs1 ++ cs2).contains c = true := by
  have hm : c ∈ cs2 := by simpa using h
  simpa using List.mem_append_right cs1 hm

theorem meNorm_cols (df : DF) : (meNorm df).cols = df.cols := rfl

theorem addMissing_cons (df : DF) (c : String) (cs : List String) :
    addMissing df (c :: cs)
      = addMissing (if df.cols.contains c then df else df.addNACol c) cs := rfl

theorem addNACol_dates (df : DF) (c : String) :
    (df.addNACol c).rows.map (fun r => r.1) = df.rows.map (fun r => r.1) := by
  simp [DF.addNACol, List.map_map]

theorem addMissing_dates (ordered : List String) (df : DF) :
    (addMissing df ordered).rows.map (fun r => r.1) = df.rows.map (fun r => r.1) := by
  induction ordered generalizing df with
  | nil => rfl
  | cons c cs ih =>
    rw [addMissing_cons]
    by_cases hc : df.cols.contains c = true
    · rw [if_pos hc]
      exact ih df
    · rw [if_neg hc, ih (df.addNACol c), addNACol_dates]

theorem select_dates (df : DF) (cs : List String) :
    (df.select cs).rows.map (fun r => r.1) = df.rows.map (fun r => r.1) := by
  simp [DF.select, List.map_map]

theorem leftJoin_dates (l r : DF) :
    (leftJoin l r).rows.map (fun x => x.1) = l.rows.map (fun x => x.1) := by
  simp [leftJoin, List.map_map]

theorem joinedTable_dates (five mom : DF) (required : List String) (momName : String) :
    (joinedTable five mom required momName).rows.map (fun r => r.1)
      = (meNorm five).rows.map (fun r => r.1) := by
  rw [joinedTable, ensureAllCols, select_dates, addMissing_dates, leftJoin_dates]

theorem addNACol_colOf (df : DF) (c c' : String) (h : df.cols.contains c = true) :
    (df.addNACol c').colOf c = df.colOf c := by
  rcases colIdx_isSome_of_contains h with ⟨i, hi⟩
  simp only [DF.addNACol, DF.colOf, List.map_map]
  apply List.map_congr_left
  intro r _
  simp only [Function.comp]
  have hfull : colIdx (df.cols ++ [c']) c = some i := colIdx_append_some hi [c']
  simp only [rowVal, hi, hfull]
  rw [nthD_append_nones]
  intro x hx
  simpa using hx

theorem addMissing_colOf (ordered : List String) (df : DF) (c : String)
    (h : df.cols.contains c = true) :
    (addMissing df ordered).colOf c = df.colOf c := by
  induction ordered generalizing df with
  | nil => rfl
  | cons d ds ih =>
    rw [addMissing_cons]
    by_cases hd : df.cols.contains d = true
    · rw [if_pos hd]
      exact ih df h
    · rw [if_neg hd]
      have hc' : (df.addNACol d).cols.contains c = true := contains_append_left h [d]
      rw [ih (df.addNACol d) hc', addNACol_colOf df c d h]

theorem select_colOf (df : DF) (cs : List String) (c : String) (h : c ∈ cs) :
    (df.select cs).colOf c = df.colOf c := by
  simp only [DF.select, DF.colOf, List.map_map]
  apply List.map_congr_left
  intro r _
  simp only [Function.comp]
  rw [rowValMapSelf _ _ _ h]

theorem find_map_pair (l : List Entry) (g : Entry → Row) (d : TS) :
    ((l.map (fun r => (r.1, g r))).find? (fun b => b.1 == d))
      = (l.find? (fun r => r.1 == d)).map (fun r => (r.1, g r)) := by
  induction l with
  | nil => rfl
  | cons x xs ih =>
    by_cases hx : (x.1 == d) = true
    · simp [List.find?_cons, hx]
    · simp [List.find?_cons, hx, ih]

theorem joinedTable_momCol (five mom : DF) (required : List String) (momName : String)
    (hnotin : five.cols.contains momName = false)
    (hreq : momName ∈ required)
    (hlen : ∀ r ∈ (meNorm five).rows, r.2.length = five.cols.length) :
    (joinedTable five mom required momName).colOf momName
      = (meNorm five).rows.map (fun r => (r.1, momLookup (meNorm mom) momName r.1)) := by
  have hsingle : ([momName].contains momName) = true := by simp
  have hcontain :
      ((leftJoin (meNorm five) ((meNorm mom).select [momName])).cols.contains momName) = true :=
    contains_append_right hsingle (meNorm five).cols
  rw [joinedTable, ensureAllCols, select_colOf _ _ _ hreq, addMissing_colOf _ _ _ hcontain]
  simp only [leftJoin, DF.colOf, List.map_map]
  apply List.map_congr_left
  intro a ha
  simp only [Function.comp, Prod.mk.injEq, eq_self_iff_true]
  refine ⟨trivial, ?_⟩
  have hidx : colIdx (meNorm five).cols momName = none := colIdx_none_of_not_contains hnotin
  have hsel0 : colIdx ((meNorm mom).select [momName]).cols momName = some 0 := by
    show colIdx [momName] momName = some 0
    simp [colIdx]
  have hfull : colIdx ((meNorm five).cols ++ ((meNorm mom).select [momName]).cols) momName
      = some (0 + (meNorm five).cols.length) := by
    rw [colIdx_append_none hidx, hsel0]
    rfl
  simp only [rowVal, hfull]
  have hlena := hlen a ha
  have h0 : 0 + (meNorm five).cols.length = a.2.length + 0 := by
    rw [meNorm_cols]
    omega
  rw [h0, nthD_append_right]
  have hsel : ((meNorm mom).select [momName]).rows
      = (meNorm mom).rows.map (fun r => (r.1, [rowVal (meNorm mom).cols r.2 momName])) := by
    simp [DF.select]
  rw [hsel, find_map_pair]
  cases hf : (meNorm mom).rows.find? (fun r => r.1 == a.1) with
  | none => simp [momLookup, hf, nthD, DF.select]
  | some r => simp [momLookup, hf, nthD]

theorem alignJoin_ok_eq (five mom : DF) (required : List String) (momName : String) (df : DF)
    (h : alignJoin five mom required momName = .ok df) :
    df = joinedTable five mom required momName := by
  simp only [alignJoin] at h
  split at h
  · simp at h
  · split at h
    · simp at h
    · split at h
      · simp at h
      · split at h
        · simp at h
        · split at h
          · simp at h
          · have := h.symm
            simpa using this

/-! ## Aligner/Joiner claims -/

/-- The five-factor table of the end-to-end scenario: three month-ends of
1963 with constant factor values. -/
def fiveScenario : DF :=
  ⟨["MKT_RF", "SMB", "HML", "RMW", "CMA", "RF"],
   [(monthEnd 1963 7,
     [some (mkRat 1 10), some (mkRat 2 10), some (-(mkRat 1 10)),
      some (mkRat 5 100), some (mkRat 3 100), some (mkRat 1 100)]),
    (monthEnd 1963 8,
     [some (mkRat 1 10), some (mkRat 2 10), some (-(mkRat 1 10)),
      some (mkRat 5 100), some (mkRat 3 100), some (mkRat 1 100)]),
    (monthEnd 1963 9,
     [some (mkRat 1 10), some (mkRat 2 10), some (-(mkRat 1 10)),
      some (mkRat 5 100), some (mkRat 3 100), some (mkRat 1 100)])]⟩

/-- The momentum table of the end-to-end scenario: August and September
1963 only. -/
def momScenario : DF :=
  ⟨["Mom"],
   [(monthEnd 1963 8, [some (mkRat 5 10)]),
    (monthEnd 1963 9, [some (-(mkRat 3 10))])]⟩

/-- The expected joined output of the scenario: three rows, momentum
missing in July, columns in the canonical order. -/
def joinedScenario : DF :=
  ⟨["MKT_RF", "SMB", "HML", "RMW", "CMA", "Mom", "RF"],
   [(monthEnd 1963 7,
     [some (mkRat 1 10), some (mkRat 2 10), some (-(mkRat 1 10)),
      some (mkRat 5 100), some (mkRat 3 100), none, some (mkRat 1 100)]),
    (monthEnd 1963 8,
     [some (mkRat 1 10), some (mkRat 2 10), some (-(mkRat 1 10)),
      some (mkRat 5 100), some (mkRat 3 100), some (mkRat 5 10), some (mkRat 1 100)]),
    (monthEnd 1963 9,
     [some (mkRat 1 10), some (mkRat 2 10), some (-(mkRat 1 10)),
      some (mkRat 5 100), some (mkRat 3 100), some (-(mkRat 3 10)), some (mkRat 1 100)])]⟩

/-- C3: on the concrete scenario the Aligner/Joiner returns exactly the
expected three-row table (July momentum missing, August 0.5, September
-0.3, canonical column order); and in general a successful join returns
`joinedTable`, whose row dates are exactly the five-factor table's
normalized dates, and whose momentum column attaches the momentum value
precisely at the dates the momentum table carries. -/
theorem C3_join_scenario_and_left_join :
    alignJoin fiveScenario momScenario reqCols "Mom" = .ok joinedScenario
    ∧ (∀ (five mom : DF) (required : List String) (momName : String) (df : DF),
        alignJoin five mom required momName = .ok df →
        df = joinedTable five mom required momName)
    ∧ (∀ (five mom : DF) (required : List String) (momName : String),
        (joinedTable five mom required momName).rows.map (fun r => r.1)
          = (meNorm five).rows.map (fun r => r.1))
    ∧ (∀ (five mom : DF) (required : List String) (momName : String),
        five.cols.contains momName = false → momName ∈ required →
        (∀ r ∈ (meNorm five).rows, r.2.length = five.cols.length) →
        (joinedTable five mom required momName).colOf momName
          = (meNorm five).rows.map (fun r => (r.1, momLookup (meNorm mom) momName r.1))) :=
  ⟨by decide, alignJoin_ok_eq, joinedTable_dates, joinedTable_momCol⟩

/-- Witness for `C3_join_scenario_and_left_join`: the general parts applied
to the scenario tables. -/
theorem C3_join_scenario_witness :
    joinedScenario = joinedTable fiveScenario momScenario reqCols "Mom"
    ∧ (joinedTable fiveScenario momScenario reqCols "Mom").colOf "Mom"
        = (meNorm fiveScenario).rows.map
            (fun r => (r.1, momLookup (meNorm momScenario) "Mom" r.1)) :=
  ⟨C3_join_scenario_and_left_join.2.1 fiveScenario momScenario reqCols "Mom" joinedScenario
      C3_join_scenario_and_left_join.1,
   C3_join_scenario_and_left_join.2.2.2 fiveScenario momScenario reqCols "Mom"
      (by decide) (by decide) (by decide)⟩

theorem meNorm_rows_mem {df : DF} {r : Entry} (h : r ∈ (meNorm df).rows) :
    ∃ a ∈ df.rows, r = (floorME a.1, a.2) := by
  have hm := mem_dedupSort h
  rcases List.mem_map.mp hm with ⟨a, ha, heq⟩
  exact ⟨a, ha, heq.symm⟩

/-- C4: whenever the month-end-floored date sets of the two tables share no
element, the Aligner/Joiner fails with `NoOverlap` (for every required
column list and momentum label — the overlap check precedes everything
else), so no joined table is produced. -/
theorem C4_no_overlap_failure (five mom : DF) (required : List String) (momName : String)
    (hdisj : ∀ a ∈ five.rows, ∀ b ∈ mom.rows, floorME a.1 ≠ floorME b.1) :
    alignJoin five mom required momName = .error .NoOverlap := by
  have hov : overlapLen (meNorm five) (meNorm mom) = 0 := by
    rw [overlapLen, List.length_eq_zero, List.filter_eq_nil_iff]
    intro d hd
    rcases List.mem_map.mp hd with ⟨r, hr, hrd⟩
    rcases meNorm_rows_mem hr with ⟨a, ha, hra⟩
    intro hcontains
    have hdm : d ∈ (meNorm mom).rows.map (fun r => r.1) := by simpa using hcontains
    rcases List.mem_map.mp hdm with ⟨r2, hr2, hr2d⟩
    rcases meNorm_rows_mem hr2 with ⟨b, hb, hr2b⟩
    have : floorME a.1 = floorME b.1 := by
      rw [hra] at hrd
      rw [hr2b] at hr2d
      rw [← hrd] at hr2d
      exact hr2d.symm
    exact hdisj a ha b hb this
  simp [alignJoin, hov]

/-- Witness for `C4_no_overlap_failure`: a 1963 five-factor table against a
1999 momentum table. -/
theorem C4_no_overlap_failure_witness :
    alignJoin ⟨["MKT_RF"], [(monthEnd 1963 7, [some (mkRat 1 1)])]⟩
      ⟨["Mom"], [(monthEnd 1999 1, [some (mkRat 1 2)])]⟩ reqCols "Mom"
      = .error .NoOverlap :=
  C4_no_overlap_failure _ _ _ _ (by decide)

/-- C5: with overlapping dates, a momentum column present on the right but
not on the left, the join fails with `EmptyMomentum` exactly when the
joined momentum column has no non-missing value; with at least one
non-missing momentum cell the failure is not raised (the join succeeds). -/
theorem C5_empty_momentum_iff (five mom : DF)
    (hov : overlapLen (meNorm five) (meNorm mom) ≠ 0)
    (hmom : mom.cols.contains "Mom" = true)
    (hfive : five.cols.contains "Mom" = false) :
    (alignJoin five mom reqCols "Mom" = .error .EmptyMomentum
      ↔ notNACount (joinedTable five mom reqCols "Mom") "Mom" = 0) := by
  have h1 : (overlapLen (meNorm five) (meNorm mom) == 0) = false := by simpa using hov
  have h2 : "Mom" ∈ (meNorm mom).cols := by
    have h2' : (mom.cols.contains "Mom") = true := hmom
    simpa using h2'
  have h3 : "Mom" ∉ (meNorm five).cols := by
    have h3' : (five.cols.contains "Mom") = false := hfive
    simpa using h3'
  have h4 : "Mom" ∈ (joinedTable five mom reqCols "Mom").cols := by
    show "Mom" ∈ reqCols
    decide
  constructor
  · intro h
    by_contra hne
    have h5 : (notNACount (joinedTable five mom reqCols "Mom") "Mom" == 0) = false := by
      simpa using hne
    simp [alignJoin, h1, h2, h3, h4, h5] at h
  · intro h
    have h5 : (notNACount (joinedTable five mom reqCols "Mom") "Mom" == 0) = true := by
      simpa using h
    simp [alignJoin, h1, h2, h3, h4, h5]

/-- Witness for `C5_empty_momentum_iff`: a shared date whose only momentum
cell is missing raises `EmptyMomentum`. -/
theorem C5_empty_momentum_iff_witness :
    alignJoin ⟨["MKT_RF"], [(monthEnd 1963 7, [some (mkRat 1 1)])]⟩
      ⟨["Mom"], [(monthEnd 1963 7, [none])]⟩ reqCols "Mom"
      = .error .EmptyMomentum :=
  (C5_empty_momentum_iff ⟨["MKT_RF"], [(monthEnd 1963 7, [some (mkRat 1 1)])]⟩
      ⟨["Mom"], [(monthEnd 1963 7, [none])]⟩
      (by decide) (by decide) (by decide)).mpr (by decide)

/-! ## Builder and driver claims -/

/-- C9: whenever a universe build fails — with any error the pipeline can
raise — the Writer is never invoked, so no artifact path (parquet, csv.gz,
metadata JSON) is written for that universe. -/
theorem C9_no_artifacts_on_failure (stem : String)
    (fetch5 fetchMom : Except FFError (List String)) (e : FFError)
    (h : (buildUniverse stem fetch5 fetchMom).1 = .error e) :
    (buildUniverse stem fetch5 fetchMom).2 = [] := by
  unfold buildUniverse at h ⊢
  cases hb : buildPipeline fetch5 fetchMom with
  | error e2 => simp [hb]
  | ok df =>
    rw [hb] at h
    simp at h

/-- Witness for `C9_no_artifacts_on_failure`: a failed fetch build writes
nothing. -/
theorem C9_no_artifacts_on_failure_witness :
    (buildUniverse "us_ff5_mom" (.error .FetchError) (.ok [])).1 = .error .FetchError
    ∧ (buildUniverse "us_ff5_mom" (.error .FetchError) (.ok [])).2 = [] :=
  ⟨by decide,
   C9_no_artifacts_on_failure "us_ff5_mom" (.error .FetchError) (.ok []) .FetchError
     (by decide)⟩

/-- C10: in the driver the two universe builds are not isolated — the ex-US
build is attempted exactly when the US build returns successfully, and a US
failure becomes the driver's outcome with the ex-US build never attempted. -/
theorem C10_sequential_driver (us5 usM dx5 dxM : Except FFError (List String)) :
    (("global_exus_ff5_mom" ∈ (mainDriver us5 usM dx5 dxM).2)
      ↔ (∃ df, (buildUniverse "us_ff5_mom" us5 usM).1 = .ok df))
    ∧ (∀ e, (buildUniverse "us_ff5_mom" us5 usM).1 = .error e →
        (mainDriver us5 usM dx5 dxM).1 = .error e
        ∧ "global_exus_ff5_mom" ∉ (mainDriver us5 usM dx5 dxM).2) := by
  cases hb : (buildUniverse "us_ff5_mom" us5 usM).1 with
  | error e0 =>
    constructor
    · constructor
      · intro hmem
        simp only [mainDriver, hb] at hmem
        exfalso
        have : ("global_exus_ff5_mom" : String) = "us_ff5_mom" := by simpa using hmem
        exact absurd this (by decide)
      · intro hok
        rcases hok with ⟨df, hdf⟩
        simp at hdf
    · intro e he
      have he0 : e0 = e := by
        injection he
      subst he0
      constructor
      · simp [mainDriver, hb]
      · intro hmem
        simp only [mainDriver, hb] at hmem
        have : ("global_exus_ff5_mom" : String) = "us_ff5_mom" := by simpa using hmem
        exact absurd this (by decide)
  | ok df =>
    constructor
    · constructor
      · intro _
        exact ⟨df, rfl⟩
      · intro _
        simp only [mainDriver, hb]
        cases hdx : (buildUniverse "global_exus_ff5_mom" dx5 dxM).1 with
        | error e2 => simp
        | ok df2 => simp
    · intro e he
      simp at he

/-- Witness for `C10_sequential_driver`: a failed US fetch stops the driver
before the ex-US build. -/
theorem C10_sequential_driver_witness :
    (mainDriver (.error .FetchError) (.ok []) (.ok []) (.ok [])).1 = .error .FetchError
    ∧ "global_exus_ff5_mom" ∉ (mainDriver (.error .FetchError) (.ok []) (.ok []) (.ok [])).2 :=
  (C10_sequential_driver (.error .FetchError) (.ok []) (.ok []) (.ok [])).2 .FetchError
    (by decide)
